import Mathlib

/-!
Verification of the PDF2Images page-processing pipeline.

This file gives a shallow embedding of the pipeline implemented in the
repository (`PdfProcessor.process`, `extractHeader`, `imageSeparator`,
`insertImageLink`, and the folder-allocation loop), and proves the
behavioural properties claimed for it.

Numbers that are JavaScript floats in the source (font sizes, scale
factors, sensitivity) are embedded as rationals; machine strings are
embedded as Lean strings.  External collaborators (the PDF parser, the
raster backend, the vault storage and the editor surface) are modelled
by explicit parameters and by a small editor state machine with an event
log.
-/

attribute [local semireducible] Rat.add Rat.mul Rat.sub Rat.inv

/-- A text fragment of a PDF page, as produced by the mapping at the top of
`extractHeader`: the fragment text (empty when the item carries no string)
and the font-size proxy taken from the first transform component. -/
structure Frag where
  text : String
  fontSize : ℚ
deriving DecidableEq

/-- JavaScript `String.prototype.trim()`: drop whitespace from both ends
(defined structurally over the character list so that it evaluates). -/
def jsTrim (s : String) : String :=
  String.mk (((s.data.dropWhile Char.isWhitespace).reverse.dropWhile
    Char.isWhitespace).reverse)

/-- The descending-font-size ordering used by the sort inside
`extractHeader` (`(a, b) => b.fontSize - a.fontSize` orders `a` no later
than `b` exactly when `b.fontSize ≤ a.fontSize`). -/
def lineLe (a b : Frag) : Prop := b.fontSize ≤ a.fontSize

instance : DecidableRel lineLe :=
  fun a b => inferInstanceAs (Decidable (b.fontSize ≤ a.fontSize))

instance : IsTotal Frag lineLe := ⟨fun a b => le_total b.fontSize a.fontSize⟩

instance : IsTrans Frag lineLe := ⟨fun _ _ _ hab hbc => le_trans hbc hab⟩

/-- `lines` after the in-place `lines.sort(...)` call: the fragments sorted
by font size in descending order.  JavaScript `Array.prototype.sort` is a
stable sort, modelled here by the (stable) insertion sort. -/
def sortedLines (page : List Frag) : List Frag := page.insertionSort lineLe

/-- `largestFontSize = lines[0]?.fontSize || 0`. -/
def largestFontSize (page : List Frag) : ℚ :=
  match sortedLines page with
  | [] => 0
  | l :: _ => l.fontSize

/-- `line.text.trim().length > 0`. -/
def isNonEmptyLine (l : Frag) : Bool := decide (0 < (jsTrim l.text).length)

/-- The filter predicate for `headerLines`:
`line.fontSize === largestFontSize && line.text.trim().length > 0`. -/
def isHeaderLine (page : List Frag) (l : Frag) : Bool :=
  l.fontSize == largestFontSize page && isNonEmptyLine l

/-- `headerLines = lines.filter(...)` (computed on the sorted array). -/
def headerLines (page : List Frag) : List Frag :=
  (sortedLines page).filter (isHeaderLine page)

/-- `header = headerLines.map(line => line.text).join(' ').trim()`. -/
def rawJoined (page : List Frag) : String :=
  jsTrim (String.intercalate " " ((headerLines page).map Frag.text))

/-- `averageFontSize = lines.reduce((sum, line) => sum + line.fontSize, 0) / lines.length`. -/
def averageFontSize (page : List Frag) : ℚ :=
  ((sortedLines page).map Frag.fontSize).sum / ((sortedLines page).length : ℚ)

/-- `nonEmptyLines = lines.filter(line => line.text.trim().length > 0)`. -/
def nonEmptyLines (page : List Frag) : List Frag :=
  (sortedLines page).filter isNonEmptyLine

/-- The header extractor of `utils` (`extractHeader(page, sensitivity)`):
empty-header early return, the title-only-page acceptance, and the
sensitivity threshold against the page's average font size. -/
def extractHeader (page : List Frag) (sensitivity : ℚ) : String :=
  if rawJoined page = "" then ""
  else if 0 < (nonEmptyLines page).length ∧
      (headerLines page).length = (nonEmptyLines page).length then rawJoined page
  else if largestFontSize page < averageFontSize page * sensitivity then ""
  else rawJoined page

/-- Spec-side restatement of the header text: the texts of all fragments
(in page order) whose font size equals the largest and whose trimmed text
is non-empty, joined by single spaces and trimmed.  Used to compare the
implementation, which filters the sorted array, against the spec's words. -/
def specHeader (page : List Frag) : String :=
  jsTrim (String.intercalate " " ((page.filter (isHeaderLine page)).map Frag.text))

/-- Spec-side restatement of the average: the mean font size over all
fragments in page order. -/
def specAverage (page : List Frag) : ℚ :=
  ((page.map Frag.fontSize).sum) / (page.length : ℚ)

/-- `imageSeparator(imageSeparatorSetting)` from `utils`: the literal text
appended after / placed between image links for settings 0–3. -/
def imageSeparator (setting : Int) : String :=
  if setting = 0 then "\n"
  else if setting = 1 then "\n\n"
  else if setting = 2 then "\n***\n"
  else if setting = 3 then "\n\n***\n"
  else "\n"

/-- Split a character list at every newline. -/
def splitAtNewlines : List Char → List (List Char)
  | [] => [[]]
  | c :: cs =>
    if c = '\n' then [] :: splitAtNewlines cs
    else
      match splitAtNewlines cs with
      | [] => [[c]]
      | l :: ls => (c :: l) :: ls

/-- The lines strictly between the line holding the end of one link and the
line holding the start of the next, when a separator string is placed
between the two links: drop the partial first and last lines. -/
def interiorLines (s : String) : List String :=
  (((splitAtNewlines s.data).map String.mk).drop 1).dropLast

/-- The duplicate-header comparison from the sequential post-processing
step of `PdfProcessor.process`: emit `''` when the raw header equals the
tracked `lastExtractedHeader` (a `null`-able string, modelled as
`Option String`), otherwise emit it and track it. -/
def checkDuplicateHeader (last : Option String) (finalHeader : String) :
    String × Option String :=
  if last = some finalHeader then ("", last)
  else (finalHeader, some finalHeader)

/-- Folding `checkDuplicateHeader` over a raw header sequence in page
order, starting from tracker state `last`, collecting emitted headers. -/
def dedupEmit : Option String → List String → List String
  | _, [] => []
  | last, h :: t =>
    (checkDuplicateHeader last h).1 :: dedupEmit (checkDuplicateHeader last h).2 t

/-- `CONCURRENCY_LIMIT = Math.min(totalPages, this.settings.maxConcurrentPages)`. -/
def concurrencyLimitOf (totalPages : Nat) (maxConcurrentPages : Int) : Int :=
  min (totalPages : Int) maxConcurrentPages

/-- Spec-side clamp: `clamp(c, lo, hi) = max lo (min c hi)`. -/
def clampInt (c lo hi : Int) : Int := max lo (min c hi)

/-- The characters `encodeURI` leaves unescaped besides ASCII
alphanumerics: `; / ? : @ & = + $ , - _ . ! ~ * ' ( ) #`. -/
def uriAllowedChars : List Char :=
  [';', '/', '?', ':', '@', '&', '=', '+', '$', ',', '-', '_', '.', '!',
   '~', '*', Char.ofNat 39, '(', ')', Char.ofNat 35]

/-- Uppercase hexadecimal digit for a value below 16. -/
def hexDigitChar (n : Nat) : Char :=
  if n < 10 then Char.ofNat (48 + n) else Char.ofNat (55 + n)

/-- UTF-8 byte sequence of a character. -/
def utf8ByteList (c : Char) : List Nat :=
  let n := c.toNat
  if n < 128 then [n]
  else if n < 2048 then [192 + n / 64, 128 + n % 64]
  else if n < 65536 then [224 + n / 4096, 128 + (n / 64) % 64, 128 + n % 64]
  else [240 + n / 262144, 128 + (n / 4096) % 64, 128 + (n / 64) % 64, 128 + n % 64]

/-- One character of `encodeURI` output: kept verbatim when in the
unescaped set, otherwise percent-encoded per UTF-8 byte. -/
def encodeURIChar (c : Char) : String :=
  if c.isAlphanum || uriAllowedChars.contains c then String.singleton c
  else String.mk ((utf8ByteList c).foldr
    (fun b acc => '%' :: hexDigitChar (b / 16) :: hexDigitChar (b % 16) :: acc) [])

/-- JavaScript `encodeURI`, applied to the image path in the link body. -/
def encodeURI (s : String) : String :=
  String.join (s.data.map encodeURIChar)

/-- The plugin settings consumed by `PdfProcessor.process`
(`settings.ts`). -/
structure PluginSettings where
  enableHeaders : Bool
  headerSize : String
  headerExtractionSensitive : ℚ
  removeHeaderDuplicates : Bool
  imageResolution : ℚ
  imageSeparator : Int
  insertionMethod : String
  maxConcurrentPages : Int
  imageType : String
deriving DecidableEq

/-- The record returned by `processSinglePage` for one page. -/
structure PageResult where
  pageNum : Nat
  imagePath : String
  imageName : String
  rawHeader : String
  displayWidth : Nat
  qualityToUse : ℚ
deriving DecidableEq

/-- The pure core of `processSinglePage(pageNum)`: quality fallback
(`imageQuality ?? settings.imageResolution`), image name and path,
optional header extraction, and the rounded scale-1 display width
(`widthOf`, supplied by the viewport collaborator).  Rendering, encoding
and the vault write are external effects with no influence on the
returned record. -/
def processSinglePage (s : PluginSettings) (folderPath : String)
    (pages : Nat → List Frag) (widthOf : Nat → Nat) (imageQuality : Option ℚ)
    (pageNum : Nat) : PageResult :=
  let qualityToUse := imageQuality.getD s.imageResolution
  let imageName := "page_" ++ Nat.repr pageNum ++ "." ++ s.imageType
  let imagePath := folderPath ++ "/" ++ imageName
  let rawHeader :=
    if s.enableHeaders then extractHeader (pages pageNum) s.headerExtractionSensitive
    else ""
  { pageNum := pageNum, imagePath := imagePath, imageName := imageName,
    rawHeader := rawHeader, displayWidth := widthOf pageNum,
    qualityToUse := qualityToUse }

/-- A finalized per-page output of the sequential post-processing step:
the page number, the header after deduplication, and the link text. -/
structure LinkRecord where
  pageNum : Nat
  finalHeader : String
  imageLink : String
deriving DecidableEq

/-- The link string built in the post-processing loop: optional heading
line, then the embed, with an explicit display width when the render
quality is below 1.0. -/
def buildLink (s : PluginSettings) (r : PageResult) (finalHeader : String) : String :=
  let headPart :=
    if finalHeader = "" then ""
    else s.headerSize ++ " " ++ finalHeader ++ "\n"
  if r.qualityToUse < 1 then
    headPart ++ "![" ++ r.imageName ++ "|" ++ Nat.repr r.displayWidth ++ "](" ++
      encodeURI r.imagePath ++ ")"
  else
    headPart ++ "![" ++ r.imageName ++ "](" ++ encodeURI r.imagePath ++ ")"

/-- One editor mutation: a text insertion at an offset, or a scroll. -/
inductive EditOp where
  | insert (off : Nat) (text : String)
  | scroll (left top : Int)
deriving DecidableEq

/-- The target editing surface: document text, cursor (as an offset),
viewport scroll offset, and a log of the mutations performed on it. -/
structure Editor where
  doc : String
  cursor : Nat
  scrollLeft : Int
  scrollTop : Int
  log : List EditOp
deriving DecidableEq

/-- How the rendering environment may move the viewport in reaction to an
insertion; left abstract so restoration is proved against any behaviour. -/
abbrev ScrollEff := Nat → String → Int × Int

/-- Insert `text` at character offset `off` of `doc`. -/
def insertAt (doc : String) (off : Nat) (text : String) : String :=
  String.mk (doc.data.take off ++ text.data ++ doc.data.drop off)

/-- `editor.replaceRange(text, pos)` at a pure insertion position: splices
the text in, lets the environment move the viewport, and logs the
insertion. -/
def Editor.replaceRange (seff : ScrollEff) (ed : Editor) (off : Nat)
    (text : String) : Editor :=
  { ed with doc := insertAt ed.doc off text,
            scrollLeft := (seff off text).1,
            scrollTop := (seff off text).2,
            log := ed.log ++ [EditOp.insert off text] }

/-- `editor.scrollTo(left, top)`. -/
def Editor.scrollTo (ed : Editor) (left top : Int) : Editor :=
  { ed with scrollLeft := left, scrollTop := top,
            log := ed.log ++ [EditOp.scroll left top] }

/-- Whether a logged editor operation is a text insertion. -/
def isInsertOp : EditOp → Bool
  | EditOp.insert _ _ => true
  | EditOp.scroll _ _ => false

/-- `insertImageLink(editor, insertPosition, imageLink, imageSeparatorSetting)`
from `utils`: insert link plus separator at the given position and return
the position advanced past the inserted text. -/
def insertImageLink (seff : ScrollEff) (ed : Editor) (insertPosition : Nat)
    (imageLink : String) (sep : Int) : Editor × Nat :=
  let textToInsert := imageLink ++ imageSeparator sep
  (Editor.replaceRange seff ed insertPosition textToInsert,
   insertPosition + textToInsert.length)

/-- The mutable state threaded through `PdfProcessor.process`:
`lastExtractedHeader`, the procedural `insertPosition`, the accumulated
`imageLinks`, the editor, and (as specification ghost data) the sequence
of finalized link records emitted so far. -/
structure ProcState where
  lastExtractedHeader : Option String
  insertPosition : Nat
  imageLinks : List String
  ed : Editor
  records : List LinkRecord
deriving DecidableEq

/-- One iteration of the sequential post-processing loop (step 5 of
`process`): duplicate-header logic, link building, then either a
procedural insertion or accumulation for the batch insert. -/
def step (s : PluginSettings) (seff : ScrollEff) (st : ProcState)
    (r : PageResult) : ProcState :=
  let d :=
    if s.enableHeaders && s.removeHeaderDuplicates then
      checkDuplicateHeader st.lastExtractedHeader r.rawHeader
    else (r.rawHeader, st.lastExtractedHeader)
  let imageLink := buildLink s r d.1
  let rec0 : LinkRecord :=
    { pageNum := r.pageNum, finalHeader := d.1, imageLink := imageLink }
  if s.insertionMethod = "Procedural" then
    let p := insertImageLink seff st.ed st.insertPosition imageLink s.imageSeparator
    { lastExtractedHeader := d.2, insertPosition := p.2,
      imageLinks := st.imageLinks, ed := p.1, records := st.records ++ [rec0] }
  else
    { lastExtractedHeader := d.2, insertPosition := st.insertPosition,
      imageLinks := st.imageLinks ++ [imageLink], ed := st.ed,
      records := st.records ++ [rec0] }

/-- The chunk decomposition of the page loop
`for (let i = 1; i <= totalPages; i += CONCURRENCY_LIMIT)` with inner
batch `j < CONCURRENCY_LIMIT && (i + j) <= totalPages`: consecutive page
numbers in chunks of size `L` starting at `i` (empty when `L = 0`, where
the source loop would not make progress). -/
def chunksAux (N L i : Nat) : List (List Nat) :=
  if h : i ≤ N ∧ 0 < L then
    List.range' i (min L (N + 1 - i)) :: chunksAux N L (i + L)
  else []
termination_by N + 1 - i
decreasing_by omega

/-- All chunks of one run: chunk size `CONCURRENCY_LIMIT`, first page 1. -/
def pageChunks (N : Nat) (maxConcurrentPages : Int) : List (List Nat) :=
  chunksAux N (concurrencyLimitOf N maxConcurrentPages).toNat 1

/-- Steps 4–5 of `process`: for each chunk in order, run
`processSinglePage` on every page of the chunk (the `Promise.all` join
returns results in submission order), then post-process the chunk's
results sequentially. -/
def runAllChunks (seff : ScrollEff) (s : PluginSettings) (fp : String)
    (pages : Nat → List Frag) (widthOf : Nat → Nat) (q : Option ℚ) (N : Nat)
    (st0 : ProcState) : ProcState :=
  (pageChunks N s.maxConcurrentPages).foldl
    (fun st ch =>
      (ch.map (processSinglePage s fp pages widthOf q)).foldl (step s seff) st)
    st0

/-- Step 6 of `process`: under Batch insertion, join all accumulated links
with the separator, capture the scroll offset, insert once at the initial
cursor, and restore the captured scroll offset. -/
def batchInsert (seff : ScrollEff) (s : PluginSettings) (ed : Editor)
    (initialCursor : Nat) (imageLinks : List String) : Editor :=
  if s.insertionMethod = "Batch" then
    Editor.scrollTo
      (Editor.replaceRange seff ed initialCursor
        (String.intercalate (imageSeparator s.imageSeparator) imageLinks))
      ed.scrollLeft ed.scrollTop
  else ed

/-- The deterministic output core of one `PdfProcessor.process` run:
capture the initial cursor, run the chunked loop, then perform the batch
insertion if configured.  `pages`, `widthOf`, `q` and `fp` stand for the
per-page data delivered by the external collaborators. -/
def processRun (seff : ScrollEff) (s : PluginSettings) (fp : String)
    (pages : Nat → List Frag) (widthOf : Nat → Nat) (q : Option ℚ) (N : Nat)
    (ed0 : Editor) : ProcState :=
  let st0 : ProcState :=
    { lastExtractedHeader := none, insertPosition := ed0.cursor,
      imageLinks := [], ed := ed0, records := [] }
  let st := runAllChunks seff s fp pages widthOf q N st0
  { st with ed := batchInsert seff s st.ed ed0.cursor st.imageLinks }

/-- `pdfName.replace(/#/g, '')`: strip every `#` from the desired folder
name. -/
def cleanFolderName (s : String) : String :=
  String.mk (s.data.filter (fun c => c ≠ Char.ofNat 35))

/-- The `k`-th candidate folder path tried by the allocation loop:
`basePath/clean` for `k = 0`, then `basePath/clean_k`. -/
def folderCandidate (basePath clean : String) (k : Nat) : String :=
  if k = 0 then basePath ++ "/" ++ clean
  else basePath ++ "/" ++ clean ++ "_" ++ Nat.repr k

/-- The `while (exists(folderPath))` loop of step 1 of `process`, with the
existence check against a stable set of existing paths and explicit fuel
(the loop can only collide with finitely many existing paths). -/
def allocateFrom (existing : List String) (basePath clean : String) :
    Nat → Nat → String
  | 0, k => folderCandidate basePath clean k
  | fuel + 1, k =>
    if folderCandidate basePath clean k ∈ existing then
      allocateFrom existing basePath clean fuel (k + 1)
    else folderCandidate basePath clean k

/-- Folder allocation for a desired name: strip `#`, then try
`basePath/name`, `basePath/name_1`, … until a path not in `existing` is
found.  Fuel `existing.length + 1` always suffices. -/
def allocateFolder (existing : List String) (basePath name : String) : String :=
  allocateFrom existing basePath (cleanFolderName name) (existing.length + 1) 0

/-- Decimal re-parsing of a digit string, used to invert `Nat.repr`. -/
def parseDigits (l : List Char) : Nat :=
  l.foldl (fun acc c => acc * 10 + (c.toNat - 48)) 0

/-- Observable notice events of one `process` run. -/
inductive NoticeEv where
  | showProgress
  | completeNotice
  | errorNotice
  | hideProgress
deriving DecidableEq

/-- The notice trace of `process`'s `try / catch / finally` shape:
when setup (file read, document load, folder creation) fails the progress
notice was never created and only the failure notice appears; otherwise
the progress notice is created, the run either completes or aborts on the
first failing page (fail-fast), and the `finally` block hides the notice. -/
def processNoticeTrace (setupOk : Bool) (pageOk : Nat → Bool) (N : Nat) :
    List NoticeEv :=
  if setupOk then
    [NoticeEv.showProgress] ++
      (if (List.range' 1 N).all pageOk then [NoticeEv.completeNotice]
       else [NoticeEv.errorNotice]) ++
    [NoticeEv.hideProgress]
  else [NoticeEv.errorNotice]

/-- C8: the separator placed between/after consecutive page links is: no
separator line for setting 0, one blank line for 1, one rule line for 2,
and a blank line followed by a rule line for 3 — both as literal strings
and as the lines lying strictly between two consecutive links. -/
theorem imageSeparator_mapping :
    imageSeparator 0 = "\n" ∧ interiorLines (imageSeparator 0) = [] ∧
    imageSeparator 1 = "\n\n" ∧ interiorLines (imageSeparator 1) = [""] ∧
    imageSeparator 2 = "\n***\n" ∧ interiorLines (imageSeparator 2) = ["***"] ∧
    imageSeparator 3 = "\n\n***\n" ∧ interiorLines (imageSeparator 3) = ["", "***"] := by
  refine ⟨rfl, by decide, rfl, by decide, rfl, by decide, rfl, by decide⟩

/-- C3 counterexample: for `maxConcurrentPages = 0` and `pageCount = 3` the
code's effective limit is `min(3, 0) = 0`, while
`clamp(0, 1, 3) = 1`, so the claimed clamping to a lower bound of 1 does
not happen. -/
theorem concurrencyLimit_not_clamped_below :
    concurrencyLimitOf 3 0 = 0 ∧ clampInt 0 1 3 = 1 ∧
    concurrencyLimitOf 3 0 ≠ clampInt 0 1 3 := by
  refine ⟨by decide, by decide, by decide⟩

/-- C3 (amended): the effective limit is `min(pageCount, maxConcurrentPages)`;
on positive settings (`maxConcurrentPages ≥ 1`, the only values the
settings form accepts) this agrees with `clamp(maxConcurrentPages, 1,
pageCount)`, and in particular any value above `pageCount` is cut to
`pageCount`; but a non-positive value passes through unclamped. -/
theorem concurrencyLimit_amended (N : Nat) (c : Int) (hN : 1 ≤ N) :
    concurrencyLimitOf N c = min (N : Int) c ∧
    (1 ≤ c → concurrencyLimitOf N c = clampInt c 1 N) ∧
    ((N : Int) < c → concurrencyLimitOf N c = N) ∧
    (c ≤ 0 → concurrencyLimitOf N c = c) := by
  unfold concurrencyLimitOf clampInt
  refine ⟨rfl, fun hc => ?_, fun hc => ?_, fun hc => ?_⟩ <;> omega

/-- C3 amended witness at `pageCount = 3`, `maxConcurrentPages = 5`. -/
theorem concurrencyLimit_amended_witness :
    concurrencyLimitOf 3 5 = min (3 : Int) 5 ∧
    (1 ≤ (5 : Int) → concurrencyLimitOf 3 5 = clampInt 5 1 3) ∧
    ((3 : Int) < 5 → concurrencyLimitOf 3 5 = 3) ∧
    ((5 : Int) ≤ 0 → concurrencyLimitOf 3 5 = 5) :=
  concurrencyLimit_amended 3 5 (by decide)

/-- C2: with headers and duplicate removal enabled, the sequential dedup
step emits: an empty raw header as empty, ending with tracker state empty;
a raw header equal to the tracker as empty with the tracker unchanged; any
other raw header unchanged, becoming the new tracker.  Consequently
`["A","A","B","B"]` emits `["A","","B",""]` and `["A","","A"]` emits
`["A","","A"]` (the header-less page clears the suppression memory). -/
theorem dedup_policy_spec :
    (∀ last : Option String, checkDuplicateHeader last "" = ("", some "")) ∧
    (∀ raw : String, checkDuplicateHeader (some raw) raw = ("", some raw)) ∧
    (∀ (last : Option String) (raw : String), raw ≠ "" → last ≠ some raw →
      checkDuplicateHeader last raw = (raw, some raw)) ∧
    dedupEmit none ["A", "A", "B", "B"] = ["A", "", "B", ""] ∧
    dedupEmit none ["A", "", "A"] = ["A", "", "A"] := by
  refine ⟨?_, ?_, ?_, by decide, by decide⟩
  · intro last
    by_cases h : last = some ""
    · subst h; simp [checkDuplicateHeader]
    · simp [checkDuplicateHeader, h]
  · intro raw; simp [checkDuplicateHeader]
  · intro last raw _ h2; simp [checkDuplicateHeader, h2]

/-- C2 witness: the third (hypothesis-bearing) case applied at the tracker
`some "A"` and raw header `"B"`. -/
theorem dedup_policy_spec_witness :
    checkDuplicateHeader (some "A") "B" = ("B", some "B") :=
  dedup_policy_spec.2.2.1 (some "A") "B" (by decide) (by decide)

/-- C9: whatever the outcome of the run — success, or failure of any
page's render/encode/write step — if the progress notice was created
(`showProgress` occurs in the trace) the run's last action is to dismiss
it: dismissal is the scoped `finally` cleanup, not success-conditional. -/
theorem progress_notice_dismissed (setupOk : Bool) (pageOk : Nat → Bool)
    (N : Nat) (hShown : NoticeEv.showProgress ∈ processNoticeTrace setupOk pageOk N) :
    (processNoticeTrace setupOk pageOk N).getLast? = some NoticeEv.hideProgress := by
  unfold processNoticeTrace at hShown ⊢
  cases setupOk with
  | false => simp at hShown
  | true =>
    by_cases h : (List.range' 1 N).all pageOk <;> simp [h]

/-- C9 witness: a three-page run whose second page fails still ends by
hiding the progress notice. -/
theorem progress_notice_dismissed_witness :
    (processNoticeTrace true (fun n => n ≠ 2) 3).getLast? =
      some NoticeEv.hideProgress :=
  progress_notice_dismissed true (fun n => n ≠ 2) 3 (by decide)

/-- Membership is preserved by the sort. -/
theorem mem_sortedLines {page : List Frag} {l : Frag} :
    l ∈ sortedLines page ↔ l ∈ page :=
  List.mem_insertionSort lineLe

/-- Every fragment's font size is bounded by `largestFontSize`. -/
theorem fontSize_le_largest {page : List Frag} {l : Frag} (h : l ∈ page) :
    l.fontSize ≤ largestFontSize page := by
  have hs : List.Sorted lineLe (sortedLines page) :=
    List.sorted_insertionSort lineLe page
  have hmem : l ∈ sortedLines page := mem_sortedLines.mpr h
  unfold largestFontSize
  cases hsl : sortedLines page with
  | nil => rw [hsl] at hmem; cases hmem
  | cons a t =>
    rw [hsl] at hmem hs
    rcases List.mem_cons.mp hmem with rfl | hmem2
    · exact le_refl _
    · exact List.rel_of_sorted_cons hs l hmem2

/-- Stability of the sort for the largest-font-size filter: filtering the
sorted fragment list for largest-size non-empty fragments gives the same
list as filtering the original page, because all selected fragments share
the (maximal) sort key and a stable sort keeps their relative order. -/
theorem headerLines_eq_filter (page : List Frag) :
    headerLines page = page.filter (isHeaderLine page) := by
  have hsub : List.Sublist (page.filter (isHeaderLine page)) page :=
    List.filter_sublist page
  have hpair : (page.filter (isHeaderLine page)).Pairwise lineLe := by
    apply List.pairwise_of_forall_mem_list
    intro a ha b hb
    have ha2 := List.of_mem_filter ha
    have hb2 := List.of_mem_filter hb
    unfold isHeaderLine at ha2 hb2
    have ha3 : a.fontSize = largestFontSize page :=
      eq_of_beq ((Bool.and_eq_true _ _).mp ha2).1
    have hb3 : b.fontSize = largestFontSize page :=
      eq_of_beq ((Bool.and_eq_true _ _).mp hb2).1
    unfold lineLe
    rw [ha3, hb3]
  have hsl : List.Sublist (page.filter (isHeaderLine page)) (sortedLines page) :=
    List.sublist_insertionSort hpair hsub
  have hfil : List.Sublist (page.filter (isHeaderLine page))
      ((sortedLines page).filter (isHeaderLine page)) := by
    have h2 := hsl.filter (isHeaderLine page)
    rwa [List.filter_filter, show
      (fun a => isHeaderLine page a && isHeaderLine page a) = isHeaderLine page
      from funext fun a => Bool.and_self _] at h2
  have hperm : ((sortedLines page).filter (isHeaderLine page)).Perm
      (page.filter (isHeaderLine page)) :=
    (List.perm_insertionSort lineLe page).filter (isHeaderLine page)
  exact (hfil.eq_of_length hperm.symm.length_eq).symm

/-- The joined header computed by the implementation coincides with the
spec-side one computed from the fragments in page order. -/
theorem rawJoined_eq_specHeader (page : List Frag) :
    rawJoined page = specHeader page := by
  unfold rawJoined specHeader
  rw [headerLines_eq_filter]

/-- The implementation's average equals the spec-side page-order mean. -/
theorem averageFontSize_eq_specAverage (page : List Frag) :
    averageFontSize page = specAverage page := by
  have hp : (sortedLines page).Perm page := List.perm_insertionSort lineLe page
  unfold averageFontSize specAverage
  rw [(hp.map Frag.fontSize).sum_eq, hp.length_eq]

/-- An empty header-fragment list yields an empty joined header. -/
theorem rawJoined_empty_of_headerLines_nil {page : List Frag}
    (h : headerLines page = []) : rawJoined page = "" := by
  unfold rawJoined
  rw [h]
  rfl

/-- A non-empty joined header forces a non-empty page. -/
theorem page_ne_nil_of_rawJoined {page : List Frag}
    (h : rawJoined page ≠ "") : page ≠ [] := by
  intro hp
  subst hp
  exact h (rawJoined_empty_of_headerLines_nil rfl)

/-- Strict count comparison: if `p` implies `q` on `l` and some element of
`l` satisfies `q` but not `p`, then `p` counts strictly fewer elements. -/
theorem countP_lt_of_witness {α : Type} (p q : α → Bool) (x : α) :
    ∀ l : List α, (∀ a ∈ l, p a = true → q a = true) → x ∈ l →
      q x = true → p x = false →
      l.countP p < l.countP q := by
  intro l
  induction l with
  | nil => intro _ hx; cases hx
  | cons a t ih =>
    intro himp hx hq hp
    rw [List.countP_cons, List.countP_cons]
    have hmono : t.countP p ≤ t.countP q :=
      List.countP_mono_left
        (fun b hb hpb => himp b (List.mem_cons_of_mem _ hb) hpb)
    rcases List.mem_cons.mp hx with rfl | hxt
    · rw [hp, hq]
      simp only [Bool.false_eq_true, if_false, if_true]
      omega
    · have hlt := ih
        (fun b hb hpb => himp b (List.mem_cons_of_mem _ hb) hpb) hxt hq hp
      by_cases hpa : p a = true
      · have hqa := himp a (List.mem_cons_self a t) hpa
        simp only [hpa, hqa, if_true]
        omega
      · by_cases hqa : q a = true <;> simp [hpa, hqa] <;> omega

/-- The average font size never exceeds the largest font size. -/
theorem averageFontSize_le_largest (page : List Frag) (h : page ≠ []) :
    averageFontSize page ≤ largestFontSize page := by
  have hlen : sortedLines page ≠ [] := by
    intro hs
    apply h
    have hl := (List.perm_insertionSort lineLe page).length_eq
    rw [show List.insertionSort lineLe page = sortedLines page from rfl, hs] at hl
    exact List.eq_nil_of_length_eq_zero (by simpa using hl.symm)
  have hpos : (0 : ℚ) < ((sortedLines page).length : ℚ) := by
    have h1 : 0 < (sortedLines page).length := List.length_pos.mpr hlen
    exact_mod_cast h1
  have hsum : ((sortedLines page).map Frag.fontSize).sum ≤
      ((sortedLines page).length : ℚ) * largestFontSize page := by
    have hb : ∀ x ∈ (sortedLines page).map Frag.fontSize,
        x ≤ largestFontSize page := by
      intro x hx
      rcases List.mem_map.mp hx with ⟨l, hl, rfl⟩
      exact fontSize_le_largest (mem_sortedLines.mp hl)
    have h2 := List.sum_le_card_nsmul _ _ hb
    rwa [List.length_map, nsmul_eq_mul] at h2
  unfold averageFontSize
  rw [div_le_iff hpos, mul_comm]
  exact hsum

/-- With non-negative font sizes the average is non-negative. -/
theorem averageFontSize_nonneg (page : List Frag)
    (h : ∀ l ∈ page, 0 ≤ l.fontSize) : 0 ≤ averageFontSize page := by
  unfold averageFontSize
  apply div_nonneg
  · apply List.sum_nonneg
    intro x hx
    rcases List.mem_map.mp hx with ⟨l, hl, rfl⟩
    exact h l (mem_sortedLines.mp hl)
  · exact_mod_cast Nat.zero_le _

/-- C4: on a page with at least one visibly non-empty fragment where every
such fragment carries the largest font size (a title-only page),
`extractHeader` returns the joined header for every sensitivity value,
bypassing the sensitivity threshold. -/
theorem extractHeader_title_page_rule (page : List Frag) (sens : ℚ)
    (hvis : ∃ l ∈ page, isNonEmptyLine l = true)
    (h : ∀ l ∈ page, isNonEmptyLine l = true → l.fontSize = largestFontSize page) :
    extractHeader page sens = specHeader page := by
  have hfeq : headerLines page = nonEmptyLines page := by
    unfold headerLines nonEmptyLines
    apply List.filter_congr
    intro l hl
    have hlp : l ∈ page := mem_sortedLines.mp hl
    cases hne : isNonEmptyLine l
    · simp [isHeaderLine, hne]
    · simp [isHeaderLine, hne, h l hlp hne]
  obtain ⟨w, hw, hwne⟩ := hvis
  have hwmem : w ∈ nonEmptyLines page :=
    List.mem_filter.mpr ⟨mem_sortedLines.mpr hw, hwne⟩
  have hpos : 0 < (nonEmptyLines page).length := List.length_pos_of_mem hwmem
  unfold extractHeader
  by_cases hemp : rawJoined page = ""
  · rw [if_pos hemp, ← rawJoined_eq_specHeader, hemp]
  · rw [if_neg hemp, if_pos ⟨hpos, by rw [hfeq]⟩, rawJoined_eq_specHeader]

/-- C4 witness: the single-fragment page `"Title"` yields `"Title"` even at
sensitivity 2. -/
theorem extractHeader_title_page_rule_witness :
    extractHeader [Frag.mk "Title" 12] 2 = "Title" := by
  have h := extractHeader_title_page_rule [Frag.mk "Title" 12] 2
    (by decide) (by decide)
  rw [h]
  decide

/-- C5: on a page where some visibly non-empty fragment sits below the
largest font size, `extractHeader` returns the joined largest-font-size
header unless that header is empty or the largest size falls below
`average * sensitivity`, in which case it returns the empty string. -/
theorem extractHeader_non_title_page (page : List Frag) (sens : ℚ)
    (hx : ∃ l ∈ page, isNonEmptyLine l = true ∧
      l.fontSize < largestFontSize page) :
    extractHeader page sens =
      if specHeader page = "" then ""
      else if largestFontSize page < specAverage page * sens then ""
      else specHeader page := by
  obtain ⟨w, hw, hwne, hwlt⟩ := hx
  have hph : isHeaderLine page w = false := by
    unfold isHeaderLine
    have hne : (w.fontSize == largestFontSize page) = false :=
      beq_false_of_ne (ne_of_lt hwlt)
    rw [hne, Bool.false_and]
  have hcnt : (headerLines page).length < (nonEmptyLines page).length := by
    unfold headerLines nonEmptyLines
    rw [← List.countP_eq_length_filter, ← List.countP_eq_length_filter]
    apply countP_lt_of_witness (isHeaderLine page) isNonEmptyLine w
    · intro a _ hpa
      exact ((Bool.and_eq_true _ _).mp hpa).2
    · exact mem_sortedLines.mpr hw
    · exact hwne
    · exact hph
  have hcond : ¬(0 < (nonEmptyLines page).length ∧
      (headerLines page).length = (nonEmptyLines page).length) :=
    fun hc => absurd hc.2 (Nat.ne_of_lt hcnt)
  unfold extractHeader
  rw [rawJoined_eq_specHeader, averageFontSize_eq_specAverage]
  by_cases hemp : specHeader page = ""
  · rw [if_pos hemp, if_pos hemp]
  · rw [if_neg hemp, if_neg hemp, if_neg hcond]

/-- C5 witness: body at size 10 under a size-20 heading with sensitivity 1
passes the threshold (20 ≥ 15) and yields the heading text. -/
theorem extractHeader_non_title_page_witness :
    extractHeader [Frag.mk "Body" 10, Frag.mk "Head" 20] 1 = "Head" := by
  have h := extractHeader_non_title_page [Frag.mk "Body" 10, Frag.mk "Head" 20]
    1 (by decide)
  rw [h]
  decide

/-- C10: with non-negative font sizes and `sensitivity ≤ 1` the threshold
can never reject, because the largest font size is at least the average;
`extractHeader` then returns the joined header whenever it (trivially also
when it is empty). -/
theorem extractHeader_low_sensitivity (page : List Frag) (sens : ℚ)
    (hfs : ∀ l ∈ page, 0 ≤ l.fontSize) (hsens : sens ≤ 1) :
    extractHeader page sens = specHeader page := by
  unfold extractHeader
  by_cases hemp : rawJoined page = ""
  · rw [if_pos hemp, ← rawJoined_eq_specHeader, hemp]
  · have hpage : page ≠ [] := page_ne_nil_of_rawJoined hemp
    have havg0 : 0 ≤ averageFontSize page := averageFontSize_nonneg page hfs
    have h1 : averageFontSize page * sens ≤ averageFontSize page := by
      have h2 := mul_le_mul_of_nonneg_left hsens havg0
      simpa using h2
    have hnot : ¬(largestFontSize page < averageFontSize page * sens) :=
      not_lt.mpr (le_trans h1 (averageFontSize_le_largest page hpage))
    rw [if_neg hemp]
    by_cases htitle : 0 < (nonEmptyLines page).length ∧
        (headerLines page).length = (nonEmptyLines page).length
    · rw [if_pos htitle, rawJoined_eq_specHeader]
    · rw [if_neg htitle, if_neg hnot, rawJoined_eq_specHeader]

/-- C10 witness: at sensitivity 1/2 the size-20 heading over size-10 body
is accepted. -/
theorem extractHeader_low_sensitivity_witness :
    extractHeader [Frag.mk "Body" 10, Frag.mk "Head" 20] (1 / 2) = "Head" := by
  have h := extractHeader_low_sensitivity [Frag.mk "Body" 10, Frag.mk "Head" 20]
    (1 / 2) (by decide) (by decide)
  rw [h]
  decide

/-- Decimal digit characters re-parse to their value. -/
theorem digitChar_toNat {d : Nat} (h : d < 10) :
    (Nat.digitChar d).toNat = 48 + d := by
  interval_cases d <;> rfl

/-- `Nat.toDigitsCore` with enough fuel prepends a non-empty digit string
that re-parses to the input number. -/
theorem toDigitsCore_parse :
    ∀ (fuel n : Nat) (l : List Char), n < fuel →
      ∃ ds : List Char, Nat.toDigitsCore 10 fuel n l = ds ++ l ∧ ds ≠ [] ∧
        parseDigits ds = n := by
  intro fuel
  induction fuel with
  | zero => intro n _ h; omega
  | succ f ih =>
    intro n l h
    show ∃ ds, (if n / 10 = 0 then Nat.digitChar (n % 10) :: l
        else Nat.toDigitsCore 10 f (n / 10) (Nat.digitChar (n % 10) :: l)) =
        ds ++ l ∧ ds ≠ [] ∧ parseDigits ds = n
    by_cases hdiv : n / 10 = 0
    · refine ⟨[Nat.digitChar (n % 10)], by rw [if_pos hdiv]; rfl, by simp, ?_⟩
      have hn10 : n % 10 = n := Nat.mod_eq_of_lt (by omega)
      have hlt : n % 10 < 10 := Nat.mod_lt _ (by omega)
      show 0 * 10 + ((Nat.digitChar (n % 10)).toNat - 48) = n
      rw [digitChar_toNat hlt]
      omega
    · have hpos : 0 < n := by
        rcases Nat.eq_zero_or_pos n with h0 | h0
        · exact absurd (by rw [h0]) hdiv
        · exact h0
      have hrec : n / 10 < f := by
        have h1 : n / 10 < n := Nat.div_lt_self hpos (by omega)
        omega
      obtain ⟨ds, heq, hne, hparse⟩ := ih (n / 10) (Nat.digitChar (n % 10) :: l) hrec
      refine ⟨ds ++ [Nat.digitChar (n % 10)], ?_, by simp, ?_⟩
      · rw [if_neg hdiv, heq, List.append_assoc]
        rfl
      · unfold parseDigits
        rw [List.foldl_append]
        show parseDigits ds * 10 + ((Nat.digitChar (n % 10)).toNat - 48) = n
        rw [hparse, digitChar_toNat (Nat.mod_lt _ (by omega))]
        omega

/-- Re-parsing the decimal representation of `n` recovers `n`. -/
theorem parseDigits_repr (n : Nat) : parseDigits (Nat.repr n).data = n := by
  obtain ⟨ds, heq, _, hparse⟩ :=
    toDigitsCore_parse (n + 1) n [] (Nat.lt_succ_self n)
  show parseDigits (Nat.toDigits 10 n) = n
  unfold Nat.toDigits
  rw [heq, List.append_nil, hparse]

/-- `Nat.repr` is injective. -/
theorem natRepr_injective : Function.Injective Nat.repr := by
  intro a b h
  have := congrArg (fun s => parseDigits s.data) h
  simpa [parseDigits_repr] using this

/-- Distinct suffix indices give distinct candidate folder paths. -/
theorem folderCandidate_injective (basePath clean : String) :
    Function.Injective (folderCandidate basePath clean) := by
  intro k k' h
  unfold folderCandidate at h
  by_cases hk : k = 0 <;> by_cases hk' : k' = 0
  · rw [hk, hk']
  · rw [if_pos hk, if_neg hk'] at h
    have := congrArg (fun s => s.data.length) h
    simp at this
  · rw [if_neg hk, if_pos hk'] at h
    have := congrArg (fun s => s.data.length) h
    simp at this
  · rw [if_neg hk, if_neg hk'] at h
    have h2 := congrArg String.data h
    simp only [String.data_append, List.append_assoc] at h2
    have h3 : (Nat.repr k).data = (Nat.repr k').data :=
      List.append_cancel_left (List.append_cancel_left
        (List.append_cancel_left (List.append_cancel_left h2)))
    have h4 := congrArg parseDigits h3
    rwa [parseDigits_repr, parseDigits_repr] at h4

/-- Among the first `existing.length + 1` candidates some path is free. -/
theorem exists_free_candidate (existing : List String) (basePath clean : String) :
    ∃ j, j ≤ existing.length ∧ folderCandidate basePath clean j ∉ existing := by
  by_contra hcon
  push_neg at hcon
  have hnodup : ((List.range (existing.length + 1)).map
      (folderCandidate basePath clean)).Nodup :=
    (List.nodup_range _).map (folderCandidate_injective basePath clean)
  have hsub : (List.range (existing.length + 1)).map
      (folderCandidate basePath clean) ⊆ existing := by
    intro x hx
    rcases List.mem_map.mp hx with ⟨j, hj, rfl⟩
    exact hcon j (by have := List.mem_range.mp hj; omega)
  have hle := (List.subperm_of_subset hnodup hsub).length_le
  rw [List.length_map, List.length_range] at hle
  omega

/-- The allocation loop, given fuel covering a free candidate, returns the
first free candidate at or after its start index. -/
theorem allocateFrom_spec (existing : List String) (basePath clean : String) :
    ∀ (fuel k : Nat),
      (∃ j, j ≤ fuel ∧ folderCandidate basePath clean (k + j) ∉ existing) →
      ∃ j0, allocateFrom existing basePath clean fuel k =
          folderCandidate basePath clean (k + j0) ∧
        folderCandidate basePath clean (k + j0) ∉ existing ∧
        ∀ i < j0, folderCandidate basePath clean (k + i) ∈ existing := by
  intro fuel
  induction fuel with
  | zero =>
    intro k ⟨j, hj, hfree⟩
    refine ⟨0, rfl, ?_, by omega⟩
    have hj0 : j = 0 := by omega
    rw [hj0] at hfree
    simpa using hfree
  | succ f ih =>
    intro k ⟨j, hj, hfree⟩
    by_cases hmem : folderCandidate basePath clean k ∈ existing
    · have hj0 : j ≠ 0 := by
        intro h0
        rw [h0] at hfree
        simp at hfree
        exact hfree hmem
      obtain ⟨j0, heq, hf, hmin⟩ := ih (k + 1)
        ⟨j - 1, by omega, by rw [show k + 1 + (j - 1) = k + j by omega]; exact hfree⟩
      refine ⟨j0 + 1, ?_, ?_, ?_⟩
      · show (if folderCandidate basePath clean k ∈ existing then
            allocateFrom existing basePath clean f (k + 1)
          else folderCandidate basePath clean k) = _
        rw [if_pos hmem, heq, show k + 1 + j0 = k + (j0 + 1) by omega]
      · rw [show k + (j0 + 1) = k + 1 + j0 by omega]
        exact hf
      · intro i hi
        cases i with
        | zero => simpa using hmem
        | succ i' =>
          rw [show k + (i' + 1) = k + 1 + i' by omega]
          exact hmin i' (by omega)
    · refine ⟨0, ?_, by simpa using hmem, by omega⟩
      show (if folderCandidate basePath clean k ∈ existing then
          allocateFrom existing basePath clean f (k + 1)
        else folderCandidate basePath clean k) = _
      rw [if_neg hmem]
      simp

/-- C6: folder allocation first strips `#` from the desired name, then
returns the first of `basePath/name`, `basePath/name_1`, `basePath/name_2`,
… that is not among the existing paths; in particular the returned path
never exists at allocation time, and for the existing set `{A/notes}` the
desired name `notes` under base `A` yields `A/notes_1`. -/
theorem folder_allocation_spec :
    allocateFolder ["A/notes"] "A" "notes" = "A/notes_1" ∧
    ∀ (existing : List String) (basePath name : String),
      ∃ k, allocateFolder existing basePath name =
          folderCandidate basePath (cleanFolderName name) k ∧
        folderCandidate basePath (cleanFolderName name) k ∉ existing ∧
        ∀ i < k, folderCandidate basePath (cleanFolderName name) i ∈ existing := by
  constructor
  · decide
  · intro existing basePath name
    obtain ⟨j, hj, hfree⟩ :=
      exists_free_candidate existing basePath (cleanFolderName name)
    obtain ⟨j0, heq, hf, hmin⟩ := allocateFrom_spec existing basePath
      (cleanFolderName name) (existing.length + 1) 0
      ⟨j, by omega, by simpa using hfree⟩
    refine ⟨j0, by simpa using heq, by simpa using hf, fun i hi => ?_⟩
    have := hmin i hi
    simpa using this

/-- Fuel-indexed flattening of the chunk loop: the chunks starting at `i`
cover exactly the pages `i, i+1, …, N`. -/
theorem chunksAux_flatten_aux (N L : Nat) (hL : 0 < L) :
    ∀ (fuel i : Nat), N + 1 - i ≤ fuel →
      (chunksAux N L i).flatten = List.range' i (N + 1 - i) := by
  intro fuel
  induction fuel with
  | zero =>
    intro i hi
    have hni : ¬(i ≤ N ∧ 0 < L) := fun hc => by omega
    rw [chunksAux, dif_neg hni, show N + 1 - i = 0 by omega]
    rfl
  | succ f ih =>
    intro i hi
    by_cases hcase : i ≤ N
    · rw [chunksAux, dif_pos ⟨hcase, hL⟩]
      show List.range' i (min L (N + 1 - i)) ++ (chunksAux N L (i + L)).flatten =
        List.range' i (N + 1 - i)
      rw [ih (i + L) (by omega)]
      by_cases hLle : L ≤ N + 1 - i
      · rw [min_eq_left hLle, show N + 1 - i = N + 1 - (i + L) + L by omega]
        exact List.range'_append_1 i L (N + 1 - (i + L))
      · rw [min_eq_right (by omega), show N + 1 - (i + L) = 0 by omega]
        simp
    · rw [chunksAux, dif_neg (fun hc => hcase hc.1),
        show N + 1 - i = 0 by omega]
      rfl

/-- The chunk decomposition covers pages `i..N` in order. -/
theorem chunksAux_flatten (N L : Nat) (hL : 0 < L) (i : Nat) :
    (chunksAux N L i).flatten = List.range' i (N + 1 - i) :=
  chunksAux_flatten_aux N L hL (N + 1 - i) i (le_refl _)

/-- With a positive concurrency setting and at least one page, the chunked
page ranges flatten to exactly `1..N`. -/
theorem pageChunks_flatten (N : Nat) (c : Int) (hN : 1 ≤ N) (hc : 1 ≤ c) :
    (pageChunks N c).flatten = List.range' 1 N := by
  unfold pageChunks
  have hL : 0 < (concurrencyLimitOf N c).toNat := by
    unfold concurrencyLimitOf
    have h1 : (1 : Int) ≤ min (N : Int) c := le_min (by exact_mod_cast hN) hc
    omega
  rw [chunksAux_flatten N _ hL 1]
  simp

/-- Chunk-wise processing equals processing the flattened page list. -/
theorem runAllChunks_eq_flat (seff : ScrollEff) (s : PluginSettings)
    (fp : String) (pages : Nat → List Frag) (widthOf : Nat → Nat) (q : Option ℚ)
    (N : Nat) (st0 : ProcState) :
    runAllChunks seff s fp pages widthOf q N st0 =
      ((pageChunks N s.maxConcurrentPages).flatten.map
        (processSinglePage s fp pages widthOf q)).foldl (step s seff) st0 := by
  unfold runAllChunks
  rw [List.foldl_map, List.foldl_flatten]
  congr 1
  funext st ch
  rw [List.foldl_map]

/-- One post-processing step appends exactly one record, for its page. -/
theorem step_records_pageNum (s : PluginSettings) (seff : ScrollEff)
    (st : ProcState) (r : PageResult) :
    ((step s seff st r).records).map LinkRecord.pageNum =
      st.records.map LinkRecord.pageNum ++ [r.pageNum] := by
  unfold step
  by_cases hm : s.insertionMethod = "Procedural" <;> simp [hm]

/-- Folding the post-processing step emits one record per result, in
submission order. -/
theorem foldl_step_records_pageNum (s : PluginSettings) (seff : ScrollEff) :
    ∀ (rs : List PageResult) (st : ProcState),
      ((rs.foldl (step s seff) st).records).map LinkRecord.pageNum =
        st.records.map LinkRecord.pageNum ++ rs.map PageResult.pageNum := by
  intro rs
  induction rs with
  | nil => intro st; simp
  | cons r t ih =>
    intro st
    rw [List.foldl_cons, ih, step_records_pageNum]
    simp

/-- The emitted record sequence of a run lists the pages `1..N` in strictly
ascending order, one record per page. -/
theorem processRun_records_pageNum (seff : ScrollEff) (s : PluginSettings)
    (fp : String) (pages : Nat → List Frag) (widthOf : Nat → Nat) (q : Option ℚ)
    (N : Nat) (ed0 : Editor) (hN : 1 ≤ N) (hc : 1 ≤ s.maxConcurrentPages) :
    ((processRun seff s fp pages widthOf q N ed0).records).map
      LinkRecord.pageNum = List.range' 1 N := by
  have h1 : (processRun seff s fp pages widthOf q N ed0).records =
      (runAllChunks seff s fp pages widthOf q N
        { lastExtractedHeader := none, insertPosition := ed0.cursor,
          imageLinks := [], ed := ed0, records := [] }).records := rfl
  rw [h1, runAllChunks_eq_flat, foldl_step_records_pageNum,
    pageChunks_flatten N s.maxConcurrentPages hN hc]
  simp only [List.map_map, List.nil_append]
  have hid : PageResult.pageNum ∘ processSinglePage s fp pages widthOf q = id :=
    funext fun n => rfl
  rw [hid, List.map_id]
  rfl

/-- C1: for `pageCount ≥ 1` and `maxConcurrentPages ≥ 1`, one run emits
exactly one record per page with page numbers `1..pageCount` in strictly
ascending order, and the entire result — every final header, link and
editor effect — is identical to the result of a strictly sequential run
with concurrency limit 1: the limit affects scheduling only. -/
theorem process_concurrency_independent (seff : ScrollEff) (s : PluginSettings)
    (fp : String) (pages : Nat → List Frag) (widthOf : Nat → Nat) (q : Option ℚ)
    (N : Nat) (ed0 : Editor) (hN : 1 ≤ N) (hc : 1 ≤ s.maxConcurrentPages) :
    ((processRun seff s fp pages widthOf q N ed0).records).map
      LinkRecord.pageNum = List.range' 1 N ∧
    processRun seff s fp pages widthOf q N ed0 =
      processRun seff { s with maxConcurrentPages := 1 } fp pages widthOf q N
        ed0 := by
  refine ⟨processRun_records_pageNum seff s fp pages widthOf q N ed0 hN hc, ?_⟩
  have hrun : runAllChunks seff s fp pages widthOf q N
      { lastExtractedHeader := none, insertPosition := ed0.cursor,
        imageLinks := [], ed := ed0, records := [] } =
      runAllChunks seff { s with maxConcurrentPages := 1 } fp pages widthOf q N
        { lastExtractedHeader := none, insertPosition := ed0.cursor,
          imageLinks := [], ed := ed0, records := [] } := by
    rw [runAllChunks_eq_flat, runAllChunks_eq_flat]
    show ((pageChunks N s.maxConcurrentPages).flatten.map
        (processSinglePage s fp pages widthOf q)).foldl (step s seff) _ =
      ((pageChunks N 1).flatten.map
        (processSinglePage s fp pages widthOf q)).foldl (step s seff) _
    rw [pageChunks_flatten N s.maxConcurrentPages hN hc,
      pageChunks_flatten N 1 hN (by omega)]
  simp only [processRun]
  rw [← hrun]
  rfl

/-- Outside Procedural mode a post-processing step leaves the editor
untouched. -/
theorem step_batch_ed (s : PluginSettings) (seff : ScrollEff) (st : ProcState)
    (r : PageResult) (hm : s.insertionMethod ≠ "Procedural") :
    (step s seff st r).ed = st.ed := by
  unfold step
  simp [hm]

/-- Outside Procedural mode the accumulated links stay aligned with the
emitted records. -/
theorem step_batch_links (s : PluginSettings) (seff : ScrollEff)
    (st : ProcState) (r : PageResult) (hm : s.insertionMethod ≠ "Procedural")
    (hinv : st.imageLinks = st.records.map LinkRecord.imageLink) :
    (step s seff st r).imageLinks =
      ((step s seff st r).records).map LinkRecord.imageLink := by
  unfold step
  simp [hm, hinv]

/-- Folded version of `step_batch_ed`. -/
theorem foldl_step_batch_ed (s : PluginSettings) (seff : ScrollEff)
    (hm : s.insertionMethod ≠ "Procedural") :
    ∀ (rs : List PageResult) (st : ProcState),
      (rs.foldl (step s seff) st).ed = st.ed := by
  intro rs
  induction rs with
  | nil => intro st; rfl
  | cons r t ih =>
    intro st
    rw [List.foldl_cons, ih (step s seff st r), step_batch_ed s seff st r hm]

/-- Folded version of `step_batch_links`. -/
theorem foldl_step_batch_links (s : PluginSettings) (seff : ScrollEff)
    (hm : s.insertionMethod ≠ "Procedural") :
    ∀ (rs : List PageResult) (st : ProcState),
      st.imageLinks = st.records.map LinkRecord.imageLink →
      (rs.foldl (step s seff) st).imageLinks =
        ((rs.foldl (step s seff) st).records).map LinkRecord.imageLink := by
  intro rs
  induction rs with
  | nil => intro st h; exact h
  | cons r t ih =>
    intro st h
    rw [List.foldl_cons]
    exact ih (step s seff st r) (step_batch_links s seff st r hm h)

/-- C7: under Batch insertion the editor is modified by exactly one
insertion, placed at the cursor captured before any page was processed,
whose text is every page's link joined by the separator; afterwards the
viewport's scroll offset equals the offset read before the insertion (the
run restores it), and the run's records still cover pages `1..N` in
order. -/
theorem batch_insertion_frame (seff : ScrollEff) (s : PluginSettings)
    (fp : String) (pages : Nat → List Frag) (widthOf : Nat → Nat) (q : Option ℚ)
    (N : Nat) (ed0 : Editor) (hm : s.insertionMethod = "Batch")
    (hlog : ed0.log = []) (hN : 1 ≤ N) (hc : 1 ≤ s.maxConcurrentPages) :
    (((processRun seff s fp pages widthOf q N ed0).ed.log).filter isInsertOp =
      [EditOp.insert ed0.cursor
        (String.intercalate (imageSeparator s.imageSeparator)
          (((processRun seff s fp pages widthOf q N ed0).records).map
            LinkRecord.imageLink))]) ∧
    ((processRun seff s fp pages widthOf q N ed0).records).map
      LinkRecord.pageNum = List.range' 1 N ∧
    (processRun seff s fp pages widthOf q N ed0).ed.scrollLeft =
      ed0.scrollLeft ∧
    (processRun seff s fp pages widthOf q N ed0).ed.scrollTop = ed0.scrollTop := by
  have hm' : s.insertionMethod ≠ "Procedural" := by
    rw [hm]
    decide
  have hpn := processRun_records_pageNum seff s fp pages widthOf q N ed0 hN hc
  have hed : (runAllChunks seff s fp pages widthOf q N
      { lastExtractedHeader := none, insertPosition := ed0.cursor,
        imageLinks := [], ed := ed0, records := [] }).ed = ed0 := by
    rw [runAllChunks_eq_flat]
    exact foldl_step_batch_ed s seff hm' _ _
  have hlinks : (runAllChunks seff s fp pages widthOf q N
      { lastExtractedHeader := none, insertPosition := ed0.cursor,
        imageLinks := [], ed := ed0, records := [] }).imageLinks =
      ((runAllChunks seff s fp pages widthOf q N
        { lastExtractedHeader := none, insertPosition := ed0.cursor,
          imageLinks := [], ed := ed0, records := [] }).records).map
        LinkRecord.imageLink := by
    rw [runAllChunks_eq_flat]
    exact foldl_step_batch_links s seff hm' _ _ rfl
  refine ⟨?_, hpn, ?_, ?_⟩ <;>
    simp only [processRun, batchInsert, hm, if_true, Editor.scrollTo,
      Editor.replaceRange, hed, hlinks, hlog] <;>
    simp [isInsertOp, hed, hlog]

/-- C1 witness: a 3-page run with concurrency 2, headers and dedup on,
Batch insertion. -/
theorem process_concurrency_independent_witness :
    ((processRun (fun _ _ => ((5 : Int), (7 : Int)))
        (PluginSettings.mk true "#" (6 / 5) true 1 1 "Batch" 2 "webp") "att"
        (fun _ => [Frag.mk "H" 12]) (fun _ => 612) (some 1) 3
        (Editor.mk "" 0 0 0 [])).records).map LinkRecord.pageNum =
      List.range' 1 3 ∧
    processRun (fun _ _ => ((5 : Int), (7 : Int)))
      (PluginSettings.mk true "#" (6 / 5) true 1 1 "Batch" 2 "webp") "att"
      (fun _ => [Frag.mk "H" 12]) (fun _ => 612) (some 1) 3
      (Editor.mk "" 0 0 0 []) =
    processRun (fun _ _ => ((5 : Int), (7 : Int)))
      { PluginSettings.mk true "#" (6 / 5) true 1 1 "Batch" 2 "webp" with
        maxConcurrentPages := 1 } "att"
      (fun _ => [Frag.mk "H" 12]) (fun _ => 612) (some 1) 3
      (Editor.mk "" 0 0 0 []) :=
  process_concurrency_independent (fun _ _ => ((5 : Int), (7 : Int)))
    (PluginSettings.mk true "#" (6 / 5) true 1 1 "Batch" 2 "webp") "att"
    (fun _ => [Frag.mk "H" 12]) (fun _ => 612) (some 1) 3
    (Editor.mk "" 0 0 0 []) (by decide) (by decide)

/-- C7 witness: the same 3-page Batch run, starting from an editor with an
empty log and scroll offset (0, 0). -/
theorem batch_insertion_frame_witness :
    (((processRun (fun _ _ => ((5 : Int), (7 : Int)))
        (PluginSettings.mk true "#" (6 / 5) true 1 1 "Batch" 2 "webp") "att"
        (fun _ => [Frag.mk "H" 12]) (fun _ => 612) (some 1) 3
        (Editor.mk "" 0 0 0 [])).ed.log).filter isInsertOp =
      [EditOp.insert (Editor.mk "" 0 0 0 []).cursor
        (String.intercalate (imageSeparator
          (PluginSettings.mk true "#" (6 / 5) true 1 1 "Batch" 2
            "webp").imageSeparator)
          (((processRun (fun _ _ => ((5 : Int), (7 : Int)))
              (PluginSettings.mk true "#" (6 / 5) true 1 1 "Batch" 2 "webp")
              "att" (fun _ => [Frag.mk "H" 12]) (fun _ => 612) (some 1) 3
              (Editor.mk "" 0 0 0 [])).records).map
            LinkRecord.imageLink))]) ∧
    ((processRun (fun _ _ => ((5 : Int), (7 : Int)))
        (PluginSettings.mk true "#" (6 / 5) true 1 1 "Batch" 2 "webp") "att"
        (fun _ => [Frag.mk "H" 12]) (fun _ => 612) (some 1) 3
        (Editor.mk "" 0 0 0 [])).records).map LinkRecord.pageNum =
      List.range' 1 3 ∧
    (processRun (fun _ _ => ((5 : Int), (7 : Int)))
        (PluginSettings.mk true "#" (6 / 5) true 1 1 "Batch" 2 "webp") "att"
        (fun _ => [Frag.mk "H" 12]) (fun _ => 612) (some 1) 3
        (Editor.mk "" 0 0 0 [])).ed.scrollLeft =
      (Editor.mk "" 0 0 0 []).scrollLeft ∧
    (processRun (fun _ _ => ((5 : Int), (7 : Int)))
        (PluginSettings.mk true "#" (6 / 5) true 1 1 "Batch" 2 "webp") "att"
        (fun _ => [Frag.mk "H" 12]) (fun _ => 612) (some 1) 3
        (Editor.mk "" 0 0 0 [])).ed.scrollTop =
      (Editor.mk "" 0 0 0 []).scrollTop :=
  batch_insertion_frame (fun _ _ => ((5 : Int), (7 : Int)))
    (PluginSettings.mk true "#" (6 / 5) true 1 1 "Batch" 2 "webp") "att"
    (fun _ => [Frag.mk "H" 12]) (fun _ => 612) (some 1) 3
    (Editor.mk "" 0 0 0 []) rfl rfl (by decide) (by decide)
